import Mathlib

/-!
Verification development for the landscape-client CPU-profiler core
(`plot.py`, `calculate_cpu_seconds.py`).

The Python code is shallowly embedded:

* A Python `float` value is modelled by `PyFloat`: exact rationals for the
  finite values (rounding of IEEE doubles is idealised away, as is overflow
  of huge decimal literals to infinity), plus `nan`, `pinf` and `ninf`,
  with Python's comparison, `max`, and arithmetic semantics on non-finite
  values spelled out case by case.
* A text line is a `List Char`; `pyStrip` models `str.strip()`,
  `splitComma` models `str.split(",")`, `pyFloat?` models `float(s)`
  (sign, decimal digits with optional fraction and exponent, and the
  case-insensitive special words `inf`, `infinity`, `nan`; digit-group
  underscores and non-ASCII digits are not modelled), and `pyInt?` models
  `int(s)`.
* Each loader is a left fold over the input lines that mirrors the Python
  loop statement by statement, including the order of the fallible
  operations inside each `try` block.
-/

/-- Rational addition, computed on numerator and denominator with
`mkRat` (core `Rat.add` is irreducible, which would block kernel
evaluation of concrete runs); proved equal to `p + q` below. -/
def qadd (p q : ℚ) : ℚ := mkRat (p.num * q.den + q.num * p.den) (p.den * q.den)

/-- Rational multiplication via `mkRat`; proved equal to `p * q` below. -/
def qmul (p q : ℚ) : ℚ := mkRat (p.num * q.num) (p.den * q.den)

/-- Rational halving via `mkRat`; proved equal to `p / 2` below. -/
def qhalf (p : ℚ) : ℚ := mkRat p.num (p.den * 2)

/-- Embedding of a Python `float` value: an exact rational for finite
values, plus the three non-finite values. -/
inductive PyFloat where
  | finite : ℚ → PyFloat
  | pinf : PyFloat
  | ninf : PyFloat
  | nan : PyFloat
deriving DecidableEq, Repr

namespace PyFloat

/-- Python `a <= b` on floats: `ninf` below every rational below `pinf`,
and every comparison against `nan` false. -/
def ple : PyFloat → PyFloat → Bool
  | nan, _ => false
  | _, nan => false
  | ninf, _ => true
  | _, ninf => false
  | _, pinf => true
  | pinf, _ => false
  | finite p, finite q => decide (p ≤ q)

/-- Python `a < b` on floats (false whenever either side is nan). -/
def plt : PyFloat → PyFloat → Bool
  | nan, _ => false
  | _, nan => false
  | _, ninf => false
  | ninf, _ => true
  | pinf, _ => false
  | _, pinf => true
  | finite p, finite q => decide (p < q)

/-- Python `a == b` on floats (false whenever either side is nan; note
`nan == nan` is false in Python). -/
def peq : PyFloat → PyFloat → Bool
  | finite p, finite q => decide (p = q)
  | pinf, pinf => true
  | ninf, ninf => true
  | _, _ => false

/-- Python builtin `max(a, b)`: returns `b` when `b > a`, else `a`. -/
def pmax (a b : PyFloat) : PyFloat :=
  if plt a b then b else a

/-- Python float addition, with IEEE non-finite behaviour
(`inf + -inf = nan`, `nan` absorbing). -/
def padd : PyFloat → PyFloat → PyFloat
  | nan, _ => nan
  | _, nan => nan
  | pinf, ninf => nan
  | ninf, pinf => nan
  | pinf, _ => pinf
  | _, pinf => pinf
  | ninf, _ => ninf
  | _, ninf => ninf
  | finite p, finite q => finite (qadd p q)

/-- Python float negation. -/
def pneg : PyFloat → PyFloat
  | nan => nan
  | pinf => ninf
  | ninf => pinf
  | finite q => finite (-q)

/-- Python float subtraction. -/
def psub (a b : PyFloat) : PyFloat := padd a (pneg b)

/-- Python float multiplication, with IEEE non-finite behaviour
(`inf * 0 = nan`, signs multiply, `nan` absorbing). -/
def pmul : PyFloat → PyFloat → PyFloat
  | nan, _ => nan
  | _, nan => nan
  | pinf, pinf => pinf
  | pinf, ninf => ninf
  | ninf, pinf => ninf
  | ninf, ninf => pinf
  | pinf, finite q => if q = 0 then nan else if 0 < q then pinf else ninf
  | finite q, pinf => if q = 0 then nan else if 0 < q then pinf else ninf
  | ninf, finite q => if q = 0 then nan else if 0 < q then ninf else pinf
  | finite q, ninf => if q = 0 then nan else if 0 < q then ninf else pinf
  | finite p, finite q => finite (qmul p q)

/-- Python float division by the literal `2` (the only division the
integrator performs). -/
def pdiv2 : PyFloat → PyFloat
  | nan => nan
  | pinf => pinf
  | ninf => ninf
  | finite q => finite (qhalf q)

/-- The float `0.0` (also the value of Python `sum([])`, an `int` `0`
that the embedding conflates with the float). -/
def pyZero : PyFloat := finite 0

end PyFloat

section CharUtil

/-- The ASCII whitespace characters stripped by `str.strip()` (Python also
strips some unicode spaces, which never occur in these logs). -/
def isPySpace (c : Char) : Bool :=
  c = ' ' ∨ c = '\t' ∨ c = '\n' ∨ c = '\r' ∨ c = '\x0b' ∨ c = '\x0c'

/-- Embedding of Python `str.strip()`: drop whitespace from both ends. -/
def pyStrip (cs : List Char) : List Char :=
  ((cs.dropWhile isPySpace).reverse.dropWhile isPySpace).reverse

/-- Embedding of Python `str.split(",")`: split at every comma; the result
is always non-empty and empty fields are kept. -/
def splitComma : List Char → List (List Char)
  | [] => [[]]
  | c :: rest =>
    if c = ',' then [] :: splitComma rest
    else
      match splitComma rest with
      | f :: r => (c :: f) :: r
      | [] => [[c]]

/-- ASCII decimal digit test. -/
def isDig (c : Char) : Bool := '0' ≤ c ∧ c ≤ '9'

/-- Numeric value of a decimal digit string (most significant first). -/
def digitsVal (cs : List Char) : ℕ :=
  cs.foldl (fun acc c => 10 * acc + (c.toNat - '0'.toNat)) 0

end CharUtil

namespace PyParse

open PyFloat

/-- Consume an optional leading sign; return whether it was a minus and
the remainder. -/
def takeSign : List Char → Bool × List Char
  | '-' :: rest => (true, rest)
  | '+' :: rest => (false, rest)
  | cs => (false, cs)

/-- Parse the optional exponent part of a float literal: either nothing
left, or `e`/`E`, an optional sign, and at least one digit. Returns the
signed exponent, or `none` if the remainder is not a valid exponent. -/
def parseExp : List Char → Option ℤ
  | [] => some 0
  | e :: rest =>
    if e = 'e' ∨ e = 'E' then
      let (neg, rest2) := takeSign rest
      let ds := rest2.takeWhile isDig
      let rest3 := rest2.dropWhile isDig
      if ds = [] ∨ rest3 ≠ [] then none
      else some (if neg then -(digitsVal ds : ℤ) else (digitsVal ds : ℤ))
    else none

/-- The exact rational `m * 10 ^ e`, built with integer arithmetic only. -/
def decScale (m : ℕ) (e : ℤ) : ℚ :=
  match e with
  | Int.ofNat k => mkRat (Int.ofNat (m * 10 ^ k)) 1
  | Int.negSucc k => mkRat (Int.ofNat m) (10 ^ (k + 1))

/-- Parse the unsigned decimal part of a float literal:
`digits [. digits] [exponent]` with at least one digit in the mantissa.
Returns the exact rational value. -/
def parseDecimal (cs : List Char) : Option ℚ :=
  let ip := cs.takeWhile isDig
  let rest1 := cs.dropWhile isDig
  let (fp, rest2) :=
    match rest1 with
    | '.' :: r => (r.takeWhile isDig, r.dropWhile isDig)
    | _ => ([], rest1)
  if ip = [] ∧ fp = [] then none
  else
    match parseExp rest2 with
    | none => none
    | some e => some (decScale (digitsVal (ip ++ fp)) (e - fp.length))

/-- Embedding of Python `float(s)`: strip whitespace, optional sign, then
either a case-insensitive special word (`inf`, `infinity`, `nan`) or a
decimal literal with optional fraction and exponent. Returns `none` when
Python would raise `ValueError`. Digit-group underscores, non-ASCII
digits, and overflow of huge literals to infinity are not modelled. -/
def pyFloat? (cs0 : List Char) : Option PyFloat :=
  let cs := pyStrip cs0
  if cs = [] then none
  else
    let (neg, rest) := takeSign cs
    let low := rest.map Char.toLower
    if low = ['i', 'n', 'f'] ∨ low = ['i', 'n', 'f', 'i', 'n', 'i', 't', 'y'] then
      some (if neg then ninf else pinf)
    else if low = ['n', 'a', 'n'] then some nan
    else
      match parseDecimal rest with
      | none => none
      | some q => some (finite (if neg then -q else q))

/-- Embedding of Python `int(s)`: strip whitespace, optional sign, at
least one decimal digit and nothing else. Returns `none` when Python
would raise `ValueError`. -/
def pyInt? (cs0 : List Char) : Option ℤ :=
  let cs := pyStrip cs0
  if cs = [] then none
  else
    let (neg, rest) := takeSign cs
    if rest = [] ∨ rest.any (fun c => ¬ isDig c) then none
    else some (if neg then -(digitsVal rest : ℤ) else (digitsVal rest : ℤ))

end PyParse

/-- The sentinel token `(0rows)` that `load_comma_delimited_file` compares
the stripped line against. -/
def sentinelChars : List Char := ['(', '0', 'r', 'o', 'w', 's', ')']

/-- Embedding of `plot.load_single_value_file`, looping over the file's
lines. Mirrors the Python `try` block exactly: `float(parts[0])` is
appended to the timestamps list before `float(parts[1])` is evaluated, so
a line whose first field parses but whose second field is missing or
non-numeric leaves a stray timestamp behind when the exception is caught. -/
def load_single_value_file (lines : List (List Char)) : List PyFloat × List PyFloat :=
  lines.foldl
    (fun acc line =>
      let l := pyStrip line
      if l = [] then acc
      else
        match splitComma l with
        | [] => acc
        | p0 :: rest =>
          match PyParse.pyFloat? p0 with
          | none => acc
          | some t =>
            match rest with
            | [] => (acc.1 ++ [t], acc.2)
            | p1 :: _ =>
              match PyParse.pyFloat? p1 with
              | none => (acc.1 ++ [t], acc.2)
              | some v => (acc.1 ++ [t], acc.2 ++ [v]))
    ([], [])

/-- Embedding of `calculate_cpu_seconds.load_cpu_usage_data`: same format
as `load_single_value_file`, but both fields are parsed into locals before
either list is appended to, so a failed line is skipped atomically. -/
def load_cpu_usage_data (lines : List (List Char)) : List PyFloat × List PyFloat :=
  lines.foldl
    (fun acc line =>
      let l := pyStrip line
      if l = [] then acc
      else
        match splitComma l with
        | p0 :: p1 :: _ =>
          match PyParse.pyFloat? p0, PyParse.pyFloat? p1 with
          | some t, some v => (acc.1 ++ [t], acc.2 ++ [v])
          | _, _ => acc
        | _ => acc)
    ([], [])

/-- Python `sum(float(n.strip()) for n in fields)`: the float sum of the
fields, starting from `0`, or `none` if any field fails to parse
(`float` itself strips whitespace, so the extra `.strip()` is a no-op). -/
def sumFloats (fs : List (List Char)) : Option PyFloat :=
  fs.foldl
    (fun acc f =>
      match acc, PyParse.pyFloat? f with
      | some a, some v => some (PyFloat.padd a v)
      | _, _ => none)
    (some PyFloat.pyZero)

/-- Embedding of `plot.load_comma_delimited_file`: skips empty lines and
lines whose stripped text equals the sentinel `(0rows)`; otherwise parses
the first field as the timestamp and sums all remaining fields (an empty
remainder sums to `0`). Timestamp and sum are computed before either
append, so failures skip the line atomically. -/
def load_comma_delimited_file (lines : List (List Char)) : List PyFloat × List PyFloat :=
  lines.foldl
    (fun acc line =>
      let l := pyStrip line
      if l = [] then acc
      else if l = sentinelChars then acc
      else
        match splitComma l with
        | p0 :: rest =>
          match PyParse.pyFloat? p0, sumFloats rest with
          | some t, some s => (acc.1 ++ [t], acc.2 ++ [s])
          | _, _ => acc
        | [] => acc)
    ([], [])

/-- One parsed line of `cpu_time.log` as the loop stores it: timestamp,
pid, and `total_cpu = utime + stime`. `none` when the line is empty or
any of the four fields fails to parse (all four are parsed before the
sample is recorded). -/
def parseCpuLine (line : List Char) : Option (PyFloat × ℤ × PyFloat) :=
  let l := pyStrip line
  if l = [] then none
  else
    match splitComma l with
    | p0 :: p1 :: p2 :: p3 :: _ =>
      match PyParse.pyFloat? p0, PyParse.pyInt? p1, PyParse.pyFloat? p2,
          PyParse.pyFloat? p3 with
      | some t, some pid, some u, some s => some (t, pid, PyFloat.padd u s)
      | _, _, _, _ => none
    | _ => none

/-- The `pid_data` dictionary of `load_cpu_time_file`: per pid, the list
of `(timestamp, total_cpu)` samples in file order; pids listed in first
occurrence order, matching `defaultdict` insertion order. -/
abbrev PidData := List (ℤ × List (PyFloat × PyFloat))

/-- Record one sample under its pid, appending to the pid's list, or
appending a new pid entry at the end (Python dict insertion order). -/
def insertSample (pd : PidData) (pid : ℤ) (s : PyFloat × PyFloat) : PidData :=
  match pd with
  | [] => [(pid, [s])]
  | (p, ss) :: rest =>
    if p = pid then (p, ss ++ [s]) :: rest
    else (p, ss) :: insertSample rest pid s

/-- The parsing loop of `load_cpu_time_file`: fold the lines into
`pid_data`. -/
def buildPidData (lines : List (List Char)) : PidData :=
  lines.foldl
    (fun pd line =>
      match parseCpuLine line with
      | some (t, pid, c) => insertSample pd pid (t, c)
      | none => pd)
    []

/-- All timestamps of all pids, in `pid_data` iteration order (the
argument of the `set` that `load_cpu_time_file` builds). -/
def allTimestamps (pd : PidData) : List PyFloat :=
  pd.foldl (fun acc g => acc ++ g.2.map (fun s => s.1)) []

/-- Distinct-value filter modelling the Python `set`: keeps the first
representative of each `==`-class; distinct `nan`s are all kept, as in a
Python set (`nan != nan`). -/
def dedupAux : List PyFloat → List PyFloat → List PyFloat
  | [], _ => []
  | x :: xs, seen =>
    if seen.any (fun y => PyFloat.peq y x) then dedupAux xs seen
    else x :: dedupAux xs (x :: seen)

/-- Distinct timestamps (Python `set` semantics). -/
def dedupPy (l : List PyFloat) : List PyFloat := dedupAux l []

/-- Ordered insert for the embedding of Python `sorted`. -/
def insertP (x : PyFloat) : List PyFloat → List PyFloat
  | [] => [x]
  | y :: ys => if PyFloat.ple x y then x :: y :: ys else y :: insertP x ys

/-- Embedding of Python `sorted` on floats, as an insertion sort by `<=`.
On nan-free input this is the unique ascending reordering; where the
input contains nan, Python sorting is order-dependent and the embedding
just picks a deterministic permutation. -/
def sortPy : List PyFloat → List PyFloat
  | [] => []
  | x :: xs => insertP x (sortPy xs)

/-- Inner loop of `load_cpu_time_file`: the running maximum, starting at
`0.0`, of the pid's `total_cpu` values over samples with
`pid_ts <= ts`. -/
def pidMaxAt (ss : List (PyFloat × PyFloat)) (T : PyFloat) : PyFloat :=
  ss.foldl
    (fun acc s => if PyFloat.ple s.1 T then PyFloat.pmax acc s.2 else acc)
    PyFloat.pyZero

/-- Middle loop of `load_cpu_time_file`: `total`, the sum over the pids
of the per-pid running maxima at timestamp `T`. -/
def totalAt (pd : PidData) (T : PyFloat) : PyFloat :=
  pd.foldl (fun tot g => PyFloat.padd tot (pidMaxAt g.2 T)) PyFloat.pyZero

/-- Embedding of `plot.load_cpu_time_file`: parse the lines into
`pid_data`, sort the set of all observed timestamps, and emit the
cumulative total at each. -/
def load_cpu_time_file (lines : List (List Char)) : List PyFloat × List PyFloat :=
  let pd := buildPidData lines
  let ts := sortPy (dedupPy (allTimestamps pd))
  (ts, ts.map (totalAt pd))

/-- Embedding of `numpy.trapezoid y x`: the sum of
`(x_(i+1) - x_i) * (y_(i+1) + y_i) / 2` over consecutive pairs, in order
(numpy computes `d * (y[1:] + y[:-1]) / 2.0` elementwise and sums; exact
rationals make the summation order immaterial on finite values). -/
def npTrapezoid (y x : List PyFloat) : PyFloat :=
  ((x.zip x.tail).zip (y.zip y.tail)).foldl
    (fun acc p =>
      PyFloat.padd acc
        (PyFloat.pdiv2 (PyFloat.pmul (PyFloat.psub p.1.2 p.1.1)
          (PyFloat.padd p.2.2 p.2.1))))
    PyFloat.pyZero

/-- Embedding of `calculate_cpu_seconds.calculate_cpu_seconds`: raises
`ValueError` (modelled as `Except.error`) when fewer than 2 points are
supplied, else returns the trapezoidal integral. -/
def calculate_cpu_seconds (timestamps cpu_values : List PyFloat) :
    Except String PyFloat :=
  if timestamps.length < 2 then
    Except.error "Need at least 2 data points to calculate area under curve"
  else Except.ok (npTrapezoid cpu_values timestamps)

/-- Cell lookup in one timestamp-indexed series: the value at the (unique)
matching timestamp, or `none` (pandas `NaN`-as-missing) when the series
has no sample at that timestamp. -/
def lookupTs (s : List (PyFloat × PyFloat)) (t : PyFloat) : Option PyFloat :=
  match s.find? (fun p => PyFloat.peq p.1 t) with
  | some p => some p.2
  | none => none

/-- The index of the aligned table: the sorted distinct union of the
input series' timestamps (pandas sorts the union index when combining
differently-indexed Series into a DataFrame). -/
def unionIndex (cols : List (List (PyFloat × PyFloat))) : List PyFloat :=
  sortPy (dedupPy (cols.foldl (fun acc s => acc ++ s.map (fun p => p.1)) []))

/-- Embedding of `pd.DataFrame` over a dict of timestamp-indexed Series,
as built by `load_results_directory`: one row per union timestamp, one
cell per column, absent (`none`) where the column's series has no sample
at that timestamp. Assumes each series' timestamps are distinct, as
pandas requires for reindexing. -/
def alignByTimestamp (cols : List (List (PyFloat × PyFloat))) :
    List (PyFloat × List (Option PyFloat)) :=
  (unionIndex cols).map (fun t => (t, cols.map (fun s => lookupTs s t)))

/-- Embedding of `plot.load_results_directory` on the contents of the
five expected log files (file existence is I/O and is not modelled):
load each file with its loader, fail with `ValueError` when
`cpu_usage.log` produced no timestamps, and build the timestamp-indexed
DataFrame. -/
def load_results_directory
    (cpu_usage cpu_time db_size package_counts package_buffer_counts :
      List (List Char)) :
    Except String (List (PyFloat × List (Option PyFloat))) :=
  let cu := load_single_value_file cpu_usage
  let ct := load_cpu_time_file cpu_time
  let db := load_single_value_file db_size
  let pc := load_comma_delimited_file package_counts
  let pbc := load_comma_delimited_file package_buffer_counts
  if cu.1 = [] then Except.error "No data found in cpu_usage.log"
  else
    Except.ok (alignByTimestamp
      [cu.1.zip cu.2, ct.1.zip ct.2, db.1.zip db.2, pc.1.zip pc.2,
        pbc.1.zip pbc.2])

/-- Modelled from the spec: the ordinal-indexed alignment mode of the
Series Aligner (spec 4.5 mode (b)), which is not present under `src/`:
index rows by position instead of timestamps, requiring all input series
to have equal length, and fail with a `LengthMismatch` error when some
pair of input series have unequal lengths. -/
def alignByOrdinal (cols : List (List PyFloat)) :
    Except String (List (List PyFloat)) :=
  match cols with
  | [] => Except.ok []
  | c :: rest =>
    if rest.all (fun s => s.length = c.length) then
      Except.ok ((List.range c.length).map
        (fun i => (c :: rest).filterMap (fun s => s[i]?)))
    else Except.error "LengthMismatch"

/-- Decidable equality for `Except`, so that concrete integrator runs can
be checked by `decide`. -/
instance instDecEqExcept {α β : Type} [DecidableEq α] [DecidableEq β] :
    DecidableEq (Except α β)
  | Except.error a, Except.error b =>
    if h : a = b then Decidable.isTrue (by rw [h])
    else Decidable.isFalse (fun he => h (Except.error.inj he))
  | Except.error _, Except.ok _ => Decidable.isFalse (fun he => Except.noConfusion he)
  | Except.ok _, Except.error _ => Decidable.isFalse (fun he => Except.noConfusion he)
  | Except.ok a, Except.ok b =>
    if h : a = b then Decidable.isTrue (by rw [h])
    else Decidable.isFalse (fun he => h (Except.ok.inj he))

/-- Stated from the spec, for comparison with the code: the maximum of a
list of values, `0.0` when the list is empty ("take the maximum
(utime+stime) ... contributing 0 for a pid with no sample at or before
T"). -/
def specMaxVals : List PyFloat → PyFloat
  | [] => PyFloat.pyZero
  | v :: vs => vs.foldl PyFloat.pmax v

/-- Stated from the spec: "the maximum utime+stime among that pid's
samples with timestamp <= T (contributing 0 for a pid with no sample at
or before T)". -/
def specPidMax (ss : List (PyFloat × PyFloat)) (T : PyFloat) : PyFloat :=
  specMaxVals ((ss.filter (fun s => PyFloat.ple s.1 T)).map (fun s => s.2))

/-- Stated from the spec: "the sum, over every pid appearing in the
input, of the maximum utime+stime among that pid's samples with
timestamp <= T". -/
def specTotal (pd : PidData) (T : PyFloat) : PyFloat :=
  pd.foldl (fun tot g => PyFloat.padd tot (specPidMax g.2 T)) PyFloat.pyZero

/-- Stated from the claim, for comparison with the code: "the sum over
consecutive pairs (t_i, v_i), (t_(i+1), v_(i+1)) of
(v_i + v_(i+1)) / 2 * (t_(i+1) - t_i)". -/
def specTrapSum (s : List (PyFloat × PyFloat)) : PyFloat :=
  (s.zip s.tail).foldl
    (fun acc pq =>
      PyFloat.padd acc
        (PyFloat.pmul (PyFloat.pdiv2 (PyFloat.padd pq.1.2 pq.2.2))
          (PyFloat.psub pq.2.1 pq.1.1)))
    PyFloat.pyZero

/-- True exactly on the finite values; used to state validity
hypotheses decidably. -/
def PyFloat.isFiniteB : PyFloat → Bool
  | PyFloat.finite _ => true
  | _ => false

/-- A `cpu_time.log` line is valid when it either fails to parse (and is
skipped) or parses to a finite timestamp and a finite, non-negative
`utime+stime`; the spec's invariant on process samples. -/
def validCpuLine (line : List Char) : Bool :=
  match parseCpuLine line with
  | some (t, _, c) => t.isFiniteB && c.isFiniteB && PyFloat.ple PyFloat.pyZero c
  | none => true

/-- The samples stored in `pid_data`, flattened to
`(timestamp, pid, total_cpu)` triples. -/
def pdSamples (pd : PidData) : List (PyFloat × ℤ × PyFloat) :=
  pd.flatMap (fun g => g.2.map (fun s => (s.1, g.1, s.2)))

theorem qadd_eq (p q : ℚ) : qadd p q = p + q := by
  unfold qadd
  rw [Rat.mkRat_eq_divInt, Rat.divInt_eq_div]
  push_cast
  conv_rhs => rw [← Rat.num_div_den p, ← Rat.num_div_den q]
  field_simp

theorem qmul_eq (p q : ℚ) : qmul p q = p * q := by
  unfold qmul
  rw [Rat.mkRat_eq_divInt, Rat.divInt_eq_div]
  push_cast
  conv_rhs => rw [← Rat.num_div_den p, ← Rat.num_div_den q]
  field_simp

theorem qhalf_eq (p : ℚ) : qhalf p = p / 2 := by
  unfold qhalf
  rw [Rat.mkRat_eq_divInt, Rat.divInt_eq_div]
  push_cast
  conv_rhs => rw [← Rat.num_div_den p]
  rw [div_div]

namespace PyFloat

theorem ple_refl {a : PyFloat} (h : a ≠ nan) : ple a a = true := by
  cases a <;> simp_all [ple]

theorem ple_trans {a b c : PyFloat} (h1 : ple a b = true) (h2 : ple b c = true) :
    ple a c = true := by
  cases a <;> cases b <;> cases c <;> simp_all [ple] <;> linarith

theorem ple_total {a b : PyFloat} (ha : a ≠ nan) (hb : b ≠ nan) :
    ple a b = true ∨ ple b a = true := by
  cases a <;> cases b <;> simp_all [ple] <;> [skip] <;> exact le_total _ _

theorem left_ne_nan_of_ple {a b : PyFloat} (h : ple a b = true) : a ≠ nan := by
  cases a <;> cases b <;> simp_all [ple]

theorem right_ne_nan_of_ple {a b : PyFloat} (h : ple a b = true) : b ≠ nan := by
  cases a <;> cases b <;> simp_all [ple]

theorem ple_of_plt {a b : PyFloat} (h : plt a b = true) : ple a b = true := by
  cases a <;> cases b <;> simp_all [ple, plt] <;> linarith

theorem right_ne_nan_of_plt {a b : PyFloat} (h : plt a b = true) : b ≠ nan := by
  cases a <;> cases b <;> simp_all [plt]

theorem plt_of_ple_of_not_peq {a b : PyFloat} (h1 : ple a b = true)
    (h2 : peq a b = false) : plt a b = true := by
  cases a <;> cases b <;> simp_all [ple, plt, peq] <;> exact lt_of_le_of_ne h1 h2

theorem peq_symm {a b : PyFloat} : peq a b = peq b a := by
  cases a <;> cases b <;> simp [peq, eq_comm]

theorem peq_finite_iff {q : ℚ} {x : PyFloat} : peq x (finite q) = true ↔ x = finite q := by
  cases x <;> simp [peq]

theorem peq_refl_finite (q : ℚ) : peq (finite q) (finite q) = true := by
  simp [peq]

theorem ple_not_plt_swap {a b : PyFloat} (ha : a ≠ nan) (hb : b ≠ nan)
    (h : plt a b = false) : ple b a = true := by
  cases a <;> cases b <;> simp_all [ple, plt]

theorem pmax_ne_nan {a b : PyFloat} (ha : a ≠ nan) : pmax a b ≠ nan := by
  unfold pmax
  split
  · next h => exact right_ne_nan_of_plt h
  · exact ha

theorem ple_pmax_left {a b : PyFloat} (ha : a ≠ nan) : ple a (pmax a b) = true := by
  unfold pmax
  split
  · next h => exact ple_of_plt h
  · exact ple_refl ha

theorem pmax_mono {a a' : PyFloat} (b : PyFloat) (h : ple a a' = true) :
    ple (pmax a b) (pmax a' b) = true := by
  have ha := left_ne_nan_of_ple h
  have ha' := right_ne_nan_of_ple h
  unfold pmax
  split
  · next h1 =>
    split
    · next => exact ple_refl (right_ne_nan_of_plt h1)
    · next h2 =>
      have h2f : plt a' b = false := by simpa using h2
      exact ple_not_plt_swap ha' (right_ne_nan_of_plt h1) h2f
  · next h1 =>
    split
    · next h2 => exact ple_trans h (ple_of_plt h2)
    · next => exact h

theorem nn_pyZero : ple pyZero pyZero = true := by decide

theorem nn_ne_nan {a : PyFloat} (h : ple pyZero a = true) : a ≠ nan :=
  right_ne_nan_of_ple h

theorem nn_pmax {a : PyFloat} (b : PyFloat) (h : ple pyZero a = true) :
    ple pyZero (pmax a b) = true :=
  ple_trans h (ple_pmax_left (nn_ne_nan h))

theorem nn_padd {a b : PyFloat} (ha : ple pyZero a = true) (hb : ple pyZero b = true) :
    ple pyZero (padd a b) = true := by
  cases a <;> cases b <;> simp_all [ple, padd, pyZero, qadd_eq] <;> linarith

theorem padd_mono {a a' b b' : PyFloat} (ha : ple pyZero a = true)
    (hb : ple pyZero b = true) (h1 : ple a a' = true) (h2 : ple b b' = true) :
    ple (padd a b) (padd a' b') = true := by
  cases a <;> cases a' <;> cases b <;> cases b' <;>
    simp_all [ple, padd, pyZero, qadd_eq] <;> linarith

theorem padd_comm (a b : PyFloat) : padd a b = padd b a := by
  cases a <;> cases b <;> simp [padd, qadd_eq, add_comm]

theorem pmax_pyZero_of_nn {a : PyFloat} (h : ple pyZero a = true) :
    pmax pyZero a = a := by
  cases a with
  | finite q =>
    simp only [ple, pyZero, decide_eq_true_eq] at h
    simp only [pmax, pyZero]
    split
    · rfl
    · next hlt =>
      have hq : q = 0 := by
        have : ¬ (0 : ℚ) < q := by simpa [plt] using hlt
        linarith
      simp [hq]
  | pinf => decide
  | ninf => exact absurd h (by decide)
  | nan => exact absurd h (by decide)

end PyFloat

theorem isFiniteB_iff {x : PyFloat} : x.isFiniteB = true ↔ ∃ q, x = PyFloat.finite q := by
  cases x <;> simp [PyFloat.isFiniteB]

theorem ne_nan_of_isFiniteB {x : PyFloat} (h : x.isFiniteB = true) : x ≠ PyFloat.nan := by
  cases x <;> simp_all [PyFloat.isFiniteB]

theorem foldl_congr_mem {α β : Type} {f g : β → α → β} :
    ∀ {l : List α}, (∀ a ∈ l, ∀ b, f b a = g b a) →
      ∀ init, l.foldl f init = l.foldl g init
  | [], _, _ => rfl
  | a :: l, h, init => by
    rw [List.foldl_cons, List.foldl_cons, h a (by simp)]
    exact foldl_congr_mem (fun x hx b => h x (by simp [hx]) b) _

theorem mem_foldl_append {α β : Type} (f : β → List α) :
    ∀ (l : List β) (init : List α) (x : α),
      x ∈ l.foldl (fun acc b => acc ++ f b) init ↔ x ∈ init ∨ ∃ b ∈ l, x ∈ f b
  | [], init, x => by simp
  | b :: l, init, x => by
    rw [List.foldl_cons, mem_foldl_append f l (init ++ f b) x]
    simp [List.mem_append, or_assoc]

theorem snd_eq_of_mem_zip_map {α β : Type} {f : α → β} :
    ∀ {l : List α} {p : α × β}, p ∈ l.zip (l.map f) → p.2 = f p.1
  | [], p, h => by simp at h
  | a :: l, p, h => by
    rw [List.map_cons, List.zip_cons_cons, List.mem_cons] at h
    rcases h with h | h
    · rw [h]
    · exact snd_eq_of_mem_zip_map h

theorem insertP_perm (x : PyFloat) : ∀ l : List PyFloat, List.Perm (insertP x l) (x :: l)
  | [] => List.Perm.refl _
  | y :: ys => by
    unfold insertP
    split
    · exact List.Perm.refl _
    · exact ((insertP_perm x ys).cons y).trans (List.Perm.swap x y ys)

theorem sortPy_perm : ∀ l : List PyFloat, List.Perm (sortPy l) l
  | [] => List.Perm.refl _
  | x :: xs => (insertP_perm x (sortPy xs)).trans ((sortPy_perm xs).cons x)

theorem insertP_sorted {x : PyFloat} (hx : x ≠ PyFloat.nan) :
    ∀ {l : List PyFloat}, (∀ y ∈ l, y ≠ PyFloat.nan) →
      l.Pairwise (fun a b => PyFloat.ple a b = true) →
      (insertP x l).Pairwise (fun a b => PyFloat.ple a b = true)
  | [], _, _ => by simp [insertP]
  | y :: ys, hne, hs => by
    unfold insertP
    split
    · next h =>
      refine List.Pairwise.cons (fun z hz => ?_) hs
      rcases List.mem_cons.mp hz with rfl | hz
      · exact h
      · exact PyFloat.ple_trans h ((List.pairwise_cons.mp hs).1 z hz)
    · next h =>
      have hy : y ≠ PyFloat.nan := hne y (by simp)
      have hyx : PyFloat.ple y x = true := by
        rcases PyFloat.ple_total hx hy with h1 | h1
        · exact absurd h1 (by simpa using h)
        · exact h1
      refine List.Pairwise.cons (fun z hz => ?_) ?_
      · rcases List.mem_cons.mp ((insertP_perm x ys).mem_iff.mp hz) with rfl | hz
        · exact hyx
        · exact (List.pairwise_cons.mp hs).1 z hz
      · exact insertP_sorted hx (fun z hz => hne z (by simp [hz]))
          (List.pairwise_cons.mp hs).2

theorem sortPy_sorted :
    ∀ {l : List PyFloat}, (∀ y ∈ l, y ≠ PyFloat.nan) →
      (sortPy l).Pairwise (fun a b => PyFloat.ple a b = true)
  | [], _ => by simp [sortPy]
  | x :: xs, hne => by
    unfold sortPy
    exact insertP_sorted (hne x (by simp))
      (fun y hy => hne y (List.mem_cons_of_mem x ((sortPy_perm xs).mem_iff.mp hy)))
      (sortPy_sorted (fun y hy => hne y (by simp [hy])))

theorem mem_of_mem_dedupAux :
    ∀ {l seen : List PyFloat} {x : PyFloat}, x ∈ dedupAux l seen → x ∈ l
  | [], _, _, h => by simp [dedupAux] at h
  | y :: l, seen, x, h => by
    unfold dedupAux at h
    split at h
    · exact List.mem_cons_of_mem y (mem_of_mem_dedupAux h)
    · rcases List.mem_cons.mp h with rfl | h
      · simp
      · exact List.mem_cons_of_mem y (mem_of_mem_dedupAux h)

theorem dedupAux_spec :
    ∀ (l seen : List PyFloat),
      (dedupAux l seen).Pairwise (fun a b => PyFloat.peq a b = false)
      ∧ ∀ x ∈ dedupAux l seen, ∀ y ∈ seen, PyFloat.peq x y = false
  | [], _ => by simp [dedupAux]
  | x :: l, seen => by
    unfold dedupAux
    split
    · next => exact dedupAux_spec l seen
    · next hany =>
      have hseen : ∀ y ∈ seen, PyFloat.peq x y = false := by
        intro y hy
        have := List.any_eq_false.mp (by simpa using hany) y hy
        rw [PyFloat.peq_symm]
        simpa using this
      obtain ⟨ih1, ih2⟩ := dedupAux_spec l (x :: seen)
      refine ⟨List.Pairwise.cons (fun z hz => ?_) ih1, fun z hz y hy => ?_⟩
      · rw [PyFloat.peq_symm]
        exact ih2 z hz x (by simp)
      · rcases List.mem_cons.mp hz with rfl | hz
        · exact hseen y hy
        · exact ih2 z hz y (List.mem_cons_of_mem x hy)

theorem mem_dedupAux_of_mem :
    ∀ {l : List PyFloat} (seen : List PyFloat) {y : PyFloat},
      y ∈ l → (∃ q, y = PyFloat.finite q) →
      (∀ z ∈ l, ∃ q, z = PyFloat.finite q) →
      y ∈ dedupAux l seen ∨ ∃ x ∈ seen, PyFloat.peq x y = true
  | [], _, _, hy, _, _ => by simp at hy
  | x :: l, seen, y, hy, hfy, hf => by
    unfold dedupAux
    rcases List.mem_cons.mp hy with rfl | hy
    · split
      · next hany =>
        obtain ⟨z, hz, hzp⟩ := List.any_eq_true.mp (by simpa using hany)
        exact Or.inr ⟨z, hz, hzp⟩
      · next => exact Or.inl (by simp)
    · split
      · next => exact mem_dedupAux_of_mem seen hy hfy (fun z hz => hf z (List.mem_cons_of_mem x hz))
      · next =>
        rcases mem_dedupAux_of_mem (x :: seen) hy hfy
            (fun z hz => hf z (List.mem_cons_of_mem x hz)) with h | ⟨z, hz, hzp⟩
        · exact Or.inl (List.mem_cons_of_mem x h)
        · rcases List.mem_cons.mp hz with rfl | hz
          · obtain ⟨q, rfl⟩ := hfy
            have : z = PyFloat.finite q := PyFloat.peq_finite_iff.mp hzp
            exact Or.inl (by simp [this])
          · exact Or.inr ⟨z, hz, hzp⟩

theorem mem_dedupPy_iff {l : List PyFloat} (hf : ∀ z ∈ l, ∃ q, z = PyFloat.finite q)
    {y : PyFloat} : y ∈ dedupPy l ↔ y ∈ l := by
  constructor
  · exact mem_of_mem_dedupAux
  · intro hy
    rcases mem_dedupAux_of_mem [] hy (hf y hy) hf with h | ⟨z, hz, _⟩
    · exact h
    · simp at hz

theorem sortPy_dedupPy_strict {l : List PyFloat}
    (hf : ∀ z ∈ l, ∃ q, z = PyFloat.finite q) :
    (sortPy (dedupPy l)).Pairwise (fun a b => PyFloat.plt a b = true) := by
  have hne : ∀ y ∈ dedupPy l, y ≠ PyFloat.nan := by
    intro y hy
    obtain ⟨q, rfl⟩ := hf y (mem_of_mem_dedupAux hy)
    simp
  have hs := sortPy_sorted hne
  have hnd : (sortPy (dedupPy l)).Pairwise (fun a b => PyFloat.peq a b = false) :=
    ((sortPy_perm (dedupPy l)).pairwise_iff
      (fun h => by rw [PyFloat.peq_symm]; exact h)).mpr (dedupAux_spec l []).1
  exact (hs.and hnd).imp (fun h => PyFloat.plt_of_ple_of_not_peq h.1 h.2)

theorem pidMaxAt_eq_foldl (T : PyFloat) :
    ∀ (ss : List (PyFloat × PyFloat)) (init : PyFloat),
      ss.foldl (fun acc s => if PyFloat.ple s.1 T then PyFloat.pmax acc s.2 else acc) init
        = ((ss.filter (fun s => PyFloat.ple s.1 T)).map (fun s => s.2)).foldl PyFloat.pmax init
  | [], _ => rfl
  | s :: ss, init => by
    rw [List.foldl_cons, List.filter_cons]
    by_cases h : PyFloat.ple s.1 T = true
    · rw [if_pos h, if_pos h, List.map_cons, List.foldl_cons]
      exact pidMaxAt_eq_foldl T ss _
    · rw [if_neg h, if_neg h]
      exact pidMaxAt_eq_foldl T ss _

theorem foldl_pmax_pyZero {vs : List PyFloat}
    (h : ∀ v ∈ vs, PyFloat.ple PyFloat.pyZero v = true) :
    vs.foldl PyFloat.pmax PyFloat.pyZero = specMaxVals vs := by
  cases vs with
  | nil => rfl
  | cons v tl =>
    simp only [List.foldl_cons, specMaxVals, PyFloat.pmax_pyZero_of_nn (h v (by simp))]

theorem pidMaxAt_eq_spec {ss : List (PyFloat × PyFloat)} (T : PyFloat)
    (h : ∀ s ∈ ss, PyFloat.ple PyFloat.pyZero s.2 = true) :
    pidMaxAt ss T = specPidMax ss T := by
  unfold pidMaxAt specPidMax
  rw [pidMaxAt_eq_foldl]
  exact foldl_pmax_pyZero (fun v hv => by
    obtain ⟨s, hs, rfl⟩ := List.mem_map.mp hv
    exact h s (List.mem_of_mem_filter hs))

theorem totalAt_eq_spec {pd : PidData} (T : PyFloat)
    (h : ∀ g ∈ pd, ∀ s ∈ g.2, PyFloat.ple PyFloat.pyZero s.2 = true) :
    totalAt pd T = specTotal pd T := by
  unfold totalAt specTotal
  exact foldl_congr_mem (fun g hg b => by rw [pidMaxAt_eq_spec T (h g hg)]) _

theorem pidMaxAt_aux_nn (T : PyFloat) :
    ∀ (ss : List (PyFloat × PyFloat)) {a : PyFloat},
      PyFloat.ple PyFloat.pyZero a = true →
      PyFloat.ple PyFloat.pyZero
        (ss.foldl (fun acc s => if PyFloat.ple s.1 T then PyFloat.pmax acc s.2 else acc) a)
        = true
  | [], _, ha => ha
  | s :: ss, a, ha => by
    rw [List.foldl_cons]
    by_cases h : PyFloat.ple s.1 T = true
    · rw [if_pos h]
      exact pidMaxAt_aux_nn T ss (PyFloat.nn_pmax s.2 ha)
    · rw [if_neg h]
      exact pidMaxAt_aux_nn T ss ha

theorem pidMaxAt_nn (ss : List (PyFloat × PyFloat)) (T : PyFloat) :
    PyFloat.ple PyFloat.pyZero (pidMaxAt ss T) = true :=
  pidMaxAt_aux_nn T ss PyFloat.nn_pyZero

theorem pidMaxAt_aux_mono {T1 T2 : PyFloat} (hT : PyFloat.ple T1 T2 = true) :
    ∀ (ss : List (PyFloat × PyFloat)) {a1 a2 : PyFloat},
      PyFloat.ple PyFloat.pyZero a1 = true → PyFloat.ple PyFloat.pyZero a2 = true →
      PyFloat.ple a1 a2 = true →
      PyFloat.ple
        (ss.foldl (fun acc s => if PyFloat.ple s.1 T1 then PyFloat.pmax acc s.2 else acc) a1)
        (ss.foldl (fun acc s => if PyFloat.ple s.1 T2 then PyFloat.pmax acc s.2 else acc) a2)
        = true
  | [], _, _, _, _, h12 => h12
  | s :: ss, a1, a2, h1, h2, h12 => by
    rw [List.foldl_cons, List.foldl_cons]
    by_cases hg1 : PyFloat.ple s.1 T1 = true
    · have hg2 : PyFloat.ple s.1 T2 = true := PyFloat.ple_trans hg1 hT
      rw [if_pos hg1, if_pos hg2]
      exact pidMaxAt_aux_mono hT ss (PyFloat.nn_pmax s.2 h1) (PyFloat.nn_pmax s.2 h2)
        (PyFloat.pmax_mono s.2 h12)
    · rw [if_neg hg1]
      by_cases hg2 : PyFloat.ple s.1 T2 = true
      · rw [if_pos hg2]
        exact pidMaxAt_aux_mono hT ss h1 (PyFloat.nn_pmax s.2 h2)
          (PyFloat.ple_trans h12 (PyFloat.ple_pmax_left (PyFloat.nn_ne_nan h2)))
      · rw [if_neg hg2]
        exact pidMaxAt_aux_mono hT ss h1 h2 h12

theorem pidMaxAt_mono (ss : List (PyFloat × PyFloat)) {T1 T2 : PyFloat}
    (hT : PyFloat.ple T1 T2 = true) :
    PyFloat.ple (pidMaxAt ss T1) (pidMaxAt ss T2) = true :=
  pidMaxAt_aux_mono hT ss PyFloat.nn_pyZero PyFloat.nn_pyZero PyFloat.nn_pyZero

theorem totalAt_aux_mono {T1 T2 : PyFloat} (hT : PyFloat.ple T1 T2 = true) :
    ∀ (pd : PidData) {a1 a2 : PyFloat},
      PyFloat.ple PyFloat.pyZero a1 = true → PyFloat.ple PyFloat.pyZero a2 = true →
      PyFloat.ple a1 a2 = true →
      PyFloat.ple (pd.foldl (fun tot g => PyFloat.padd tot (pidMaxAt g.2 T1)) a1)
        (pd.foldl (fun tot g => PyFloat.padd tot (pidMaxAt g.2 T2)) a2) = true
  | [], _, _, _, _, h12 => h12
  | g :: pd, a1, a2, h1, h2, h12 => by
    rw [List.foldl_cons, List.foldl_cons]
    exact totalAt_aux_mono hT pd
      (PyFloat.nn_padd h1 (pidMaxAt_nn g.2 T1)) (PyFloat.nn_padd h2 (pidMaxAt_nn g.2 T2))
      (PyFloat.padd_mono h1 (pidMaxAt_nn g.2 T1) h12 (pidMaxAt_mono g.2 hT))

theorem totalAt_mono (pd : PidData) {T1 T2 : PyFloat}
    (hT : PyFloat.ple T1 T2 = true) :
    PyFloat.ple (totalAt pd T1) (totalAt pd T2) = true :=
  totalAt_aux_mono hT pd PyFloat.nn_pyZero PyFloat.nn_pyZero PyFloat.nn_pyZero

theorem pdSamples_insertSample (pid : ℤ) (s : PyFloat × PyFloat) :
    ∀ pd : PidData,
      List.Perm (pdSamples (insertSample pd pid s)) ((s.1, pid, s.2) :: pdSamples pd)
  | [] => by simp [insertSample, pdSamples]
  | (p, ss) :: rest => by
    unfold insertSample
    split
    · next h =>
      subst h
      simp only [pdSamples, List.flatMap_cons, List.map_append, List.map_cons,
        List.map_nil, List.append_assoc, List.nil_append, List.singleton_append]
      exact List.perm_middle
    · next h =>
      simp only [pdSamples, List.flatMap_cons]
      exact (List.Perm.append_left _ (pdSamples_insertSample pid s rest)).trans
        List.perm_middle

theorem pdSamples_foldl :
    ∀ (lines : List (List Char)) (pd : PidData),
      List.Perm
        (pdSamples (lines.foldl
          (fun pd line =>
            match parseCpuLine line with
            | some (t, pid, c) => insertSample pd pid (t, c)
            | none => pd) pd))
        (pdSamples pd ++ lines.filterMap parseCpuLine)
  | [], pd => by simp
  | line :: lines, pd => by
    rw [List.foldl_cons, List.filterMap_cons]
    cases hp : parseCpuLine line with
    | none =>
      simp only [hp]
      simpa using pdSamples_foldl lines pd
    | some x =>
      obtain ⟨t, pid, c⟩ := x
      simp only [hp]
      refine (pdSamples_foldl lines _).trans ?_
      refine (List.Perm.append_right _ (pdSamples_insertSample pid (t, c) pd)).trans ?_
      exact List.perm_middle.symm

theorem pdSamples_buildPidData (lines : List (List Char)) :
    List.Perm (pdSamples (buildPidData lines)) (lines.filterMap parseCpuLine) := by
  simpa [pdSamples] using pdSamples_foldl lines []

theorem mem_pdSamples {pd : PidData} {x : PyFloat × ℤ × PyFloat} :
    x ∈ pdSamples pd ↔ ∃ g ∈ pd, ∃ s ∈ g.2, x = (s.1, g.1, s.2) := by
  simp only [pdSamples, List.mem_flatMap, List.mem_map]
  constructor
  · rintro ⟨g, hg, s, hs, rfl⟩
    exact ⟨g, hg, s, hs, rfl⟩
  · rintro ⟨g, hg, s, hs, rfl⟩
    exact ⟨g, hg, s, hs, rfl⟩

theorem mem_allTimestamps {pd : PidData} {t : PyFloat} :
    t ∈ allTimestamps pd ↔ ∃ x ∈ pdSamples pd, x.1 = t := by
  unfold allTimestamps
  rw [mem_foldl_append]
  simp only [List.mem_nil_iff, false_or, List.mem_map, mem_pdSamples]
  constructor
  · rintro ⟨g, hg, s, hs, rfl⟩
    exact ⟨(s.1, g.1, s.2), ⟨g, hg, s, hs, rfl⟩, rfl⟩
  · rintro ⟨x, ⟨g, hg, s, hs, rfl⟩, rfl⟩
    exact ⟨g, hg, s, hs, rfl⟩

theorem mem_allTimestamps_buildPidData {lines : List (List Char)} {t : PyFloat} :
    t ∈ allTimestamps (buildPidData lines) ↔
      ∃ line ∈ lines, ∃ pid c, parseCpuLine line = some (t, pid, c) := by
  rw [mem_allTimestamps]
  constructor
  · rintro ⟨x, hx, rfl⟩
    obtain ⟨line, hline, hp⟩ :=
      List.mem_filterMap.mp ((pdSamples_buildPidData lines).mem_iff.mp hx)
    exact ⟨line, hline, x.2.1, x.2.2, hp⟩
  · rintro ⟨line, hline, pid, c, hp⟩
    refine ⟨(t, pid, c), (pdSamples_buildPidData lines).mem_iff.mpr ?_, rfl⟩
    exact List.mem_filterMap.mpr ⟨line, hline, hp⟩

theorem buildPidData_valid {lines : List (List Char)}
    (hval : ∀ line ∈ lines, validCpuLine line = true) :
    ∀ g ∈ buildPidData lines, ∀ s ∈ g.2,
      s.1.isFiniteB = true ∧ s.2.isFiniteB = true ∧
        PyFloat.ple PyFloat.pyZero s.2 = true := by
  intro g hg s hs
  have hx : (s.1, g.1, s.2) ∈ pdSamples (buildPidData lines) :=
    mem_pdSamples.mpr ⟨g, hg, s, hs, rfl⟩
  obtain ⟨line, hline, hp⟩ :=
    List.mem_filterMap.mp ((pdSamples_buildPidData lines).mem_iff.mp hx)
  have := hval line hline
  rw [validCpuLine, hp] at this
  simp only [Bool.and_eq_true] at this
  exact ⟨this.1.1, this.1.2, this.2⟩

theorem load_cpu_time_file_eq (lines : List (List Char)) :
    load_cpu_time_file lines =
      (sortPy (dedupPy (allTimestamps (buildPidData lines))),
        (sortPy (dedupPy (allTimestamps (buildPidData lines)))).map
          (totalAt (buildPidData lines))) := rfl

/-- C1: for every finite sequence of valid process-sample lines
`timestamp,pid,utime,stime` (lines that parse have a finite timestamp and
a finite, non-negative utime+stime), `load_cpu_time_file` returns a
series whose timestamps are exactly the distinct input timestamps sorted
(strictly) ascending, and whose value at each timestamp T is the sum,
over every pid appearing in the input, of the maximum utime+stime among
that pid's samples with timestamp <= T (0 for a pid with no sample at or
before T); in particular, for pid 100 with sample (0,1,0) and pid 200
with samples (5,2,1) and (10,4,1), the series is
[(0,1.0),(5,4.0),(10,6.0)]. -/
theorem c1_cpu_time_reconstruction (lines : List (List Char))
    (hval : ∀ line ∈ lines, validCpuLine line = true) :
    (load_cpu_time_file lines).1.Pairwise (fun a b => PyFloat.plt a b = true)
    ∧ (∀ t, t ∈ (load_cpu_time_file lines).1 ↔
        ∃ line ∈ lines, ∃ pid c, parseCpuLine line = some (t, pid, c))
    ∧ (load_cpu_time_file lines).2.length = (load_cpu_time_file lines).1.length
    ∧ (∀ p ∈ (load_cpu_time_file lines).1.zip (load_cpu_time_file lines).2,
        p.2 = specTotal (buildPidData lines) p.1)
    ∧ load_cpu_time_file ["0,100,1,0".toList, "5,200,2,1".toList, "10,200,4,1".toList]
        = ([PyFloat.finite 0, PyFloat.finite 5, PyFloat.finite 10],
           [PyFloat.finite 1, PyFloat.finite 4, PyFloat.finite 6]) := by
  have hgrp := buildPidData_valid hval
  have hfin : ∀ z ∈ allTimestamps (buildPidData lines), ∃ q, z = PyFloat.finite q := by
    intro z hz
    obtain ⟨x, hx, rfl⟩ := mem_allTimestamps.mp hz
    obtain ⟨g, hg, sm, hsm, rfl⟩ := mem_pdSamples.mp hx
    exact isFiniteB_iff.mp (hgrp g hg sm hsm).1
  refine ⟨?_, ?_, ?_, ?_, by decide⟩
  · rw [load_cpu_time_file_eq]
    exact sortPy_dedupPy_strict hfin
  · intro t
    rw [load_cpu_time_file_eq]
    simp only []
    rw [(sortPy_perm _).mem_iff, mem_dedupPy_iff hfin,
      mem_allTimestamps_buildPidData]
  · rw [load_cpu_time_file_eq]
    simp
  · intro p hp
    rw [load_cpu_time_file_eq] at hp
    have h2 := snd_eq_of_mem_zip_map hp
    rw [h2]
    exact totalAt_eq_spec p.1 (fun g hg s hs => (hgrp g hg s hs).2.2)

theorem c1_cpu_time_reconstruction_witness :
    load_cpu_time_file ["0,100,1,0".toList, "5,200,2,1".toList, "10,200,4,1".toList]
      = ([PyFloat.finite 0, PyFloat.finite 5, PyFloat.finite 10],
         [PyFloat.finite 1, PyFloat.finite 4, PyFloat.finite 6]) :=
  (c1_cpu_time_reconstruction
    ["0,100,1,0".toList, "5,200,2,1".toList, "10,200,4,1".toList]
    (by decide)).2.2.2.2

/-- C2: for every input (any list of text lines, well-formed or not), the
series reconstructed by `load_cpu_time_file` is non-decreasing in value
as timestamp increases: for any two output entries (T1,v1), (T2,v2) with
T1 <= T2 (Python float comparison), v1 <= v2. -/
theorem c2_cpu_time_monotone (lines : List (List Char))
    {p q : PyFloat × PyFloat}
    (hp : p ∈ (load_cpu_time_file lines).1.zip (load_cpu_time_file lines).2)
    (hq : q ∈ (load_cpu_time_file lines).1.zip (load_cpu_time_file lines).2)
    (hT : PyFloat.ple p.1 q.1 = true) :
    PyFloat.ple p.2 q.2 = true := by
  rw [load_cpu_time_file_eq] at hp hq
  rw [snd_eq_of_mem_zip_map hp, snd_eq_of_mem_zip_map hq]
  exact totalAt_mono _ hT

theorem c2_cpu_time_monotone_witness :
    PyFloat.ple
      ((PyFloat.finite 0, PyFloat.finite 1) : PyFloat × PyFloat).2
      ((PyFloat.finite 5, PyFloat.finite 4) : PyFloat × PyFloat).2 = true :=
  c2_cpu_time_monotone
    ["0,100,1,0".toList, "5,200,2,1".toList, "10,200,4,1".toList]
    (by decide) (by decide) (by decide)

/-- C3 counterexample: a file containing only the empty-result sentinel
line `(0rows)` loads to the empty series, not to one sample with value
0.0 — the code skips the sentinel (`continue`) instead of mapping it. -/
theorem c3_sentinel_counterexample :
    load_comma_delimited_file ["(0rows)".toList] = ([], [])
    ∧ (load_comma_delimited_file ["(0rows)".toList]).1.length ≠ 1 := by decide

/-- C3 (amended): a line whose stripped text equals the sentinel
`(0rows)` is skipped by `load_comma_delimited_file` (it contributes no
sample and does not disturb the rest of the load); in particular a file
containing only the sentinel loads to the empty series. -/
theorem c3_sentinel_skipped (pre post : List (List Char)) (l : List Char)
    (h : pyStrip l = sentinelChars) :
    load_comma_delimited_file (pre ++ l :: post) = load_comma_delimited_file (pre ++ post)
    ∧ load_comma_delimited_file ["(0rows)".toList] = ([], []) := by
  refine ⟨?_, by decide⟩
  unfold load_comma_delimited_file
  rw [List.foldl_append, List.foldl_append, List.foldl_cons]
  congr 1
  simp [h, sentinelChars]

theorem c3_sentinel_skipped_witness :
    load_comma_delimited_file (["1,2".toList] ++ "(0rows)".toList :: ["3,4".toList])
      = load_comma_delimited_file (["1,2".toList] ++ ["3,4".toList])
    ∧ load_comma_delimited_file ["(0rows)".toList] = ([], []) :=
  c3_sentinel_skipped ["1,2".toList] ["3,4".toList] "(0rows)".toList (by decide)

/-- C6: evaluating the loaders at the failing input shows the divergence.
Given the lines `0,1`, `5`, `10,2` (two well-formed records and one
field-deficient line), `load_single_value_file` appends `float(parts[0])`
to the timestamps before the `IndexError` from `parts[1]` is raised, so
it returns three timestamps but only two values — not exactly K = 2
samples in order, and downstream consumers that pair the arrays see
desynchronised samples. `load_cpu_usage_data`, which parses both fields
before appending, returns the claimed two samples. -/
theorem c6_single_value_loader_divergence :
    load_single_value_file ["0,1".toList, "5".toList, "10,2".toList]
      = ([PyFloat.finite 0, PyFloat.finite 5, PyFloat.finite 10],
         [PyFloat.finite 1, PyFloat.finite 2])
    ∧ load_cpu_usage_data ["0,1".toList, "5".toList, "10,2".toList]
      = ([PyFloat.finite 0, PyFloat.finite 10],
         [PyFloat.finite 1, PyFloat.finite 2]) := by decide

/-- C7 counterexample: the line `nan,1` parses (Python `float` accepts
`nan`), is not skipped, and leaves a NaN timestamp in the loaded series,
contradicting the claim that non-finite lines are treated as malformed. -/
theorem c7_nonfinite_counterexample :
    load_single_value_file ["nan,1".toList] = ([PyFloat.nan], [PyFloat.finite 1])
    ∧ load_single_value_file ["nan,1".toList] ≠ ([], []) := by decide

/-- C7 (amended): the loaders perform no finiteness check: any line whose
two fields parse under Python `float` — including `nan`, `inf` and
`-inf` — is accepted as a sample, so loaded series can contain NaN or
infinite timestamps and values; in particular `inf,nan` loads to the
sample (inf, nan). -/
theorem c7_nonfinite_accepted (l : List Char) (t v : PyFloat)
    (f0 f1 : List Char) (rest : List (List Char))
    (hne : pyStrip l ≠ [])
    (hsplit : splitComma (pyStrip l) = f0 :: f1 :: rest)
    (hf0 : PyParse.pyFloat? f0 = some t) (hf1 : PyParse.pyFloat? f1 = some v) :
    load_cpu_usage_data [l] = ([t], [v])
    ∧ load_single_value_file [l] = ([t], [v])
    ∧ load_cpu_usage_data ["inf,nan".toList] = ([PyFloat.pinf], [PyFloat.nan]) := by
  refine ⟨?_, ?_, by decide⟩
  · unfold load_cpu_usage_data
    simp [hne, hsplit, hf0, hf1]
  · unfold load_single_value_file
    simp [hne, hsplit, hf0, hf1]

theorem c7_nonfinite_accepted_witness :
    load_cpu_usage_data ["nan,-inf".toList] = ([PyFloat.nan], [PyFloat.ninf])
    ∧ load_single_value_file ["nan,-inf".toList] = ([PyFloat.nan], [PyFloat.ninf])
    ∧ load_cpu_usage_data ["inf,nan".toList] = ([PyFloat.pinf], [PyFloat.nan]) :=
  c7_nonfinite_accepted "nan,-inf".toList PyFloat.nan PyFloat.ninf
    "nan".toList "-inf".toList [] (by decide) (by decide) (by decide) (by decide)

/-- C10: evaluating both loaders at the single-field line `5.` shows the
divergence. `load_comma_delimited_file` accepts it: the line splits into
one field, the timestamp parses, and the sum over the empty list of value
fields is 0, yielding the sample (5.0, 0.0). `load_single_value_file`
appends the parsed timestamp before hitting the `IndexError` on
`parts[1]`, so rather than skipping the line it returns the stray
timestamp 5.0 with no value. -/
theorem c10_single_field_line_divergence :
    load_comma_delimited_file ["5.".toList] = ([PyFloat.finite 5], [PyFloat.finite 0])
    ∧ load_single_value_file ["5.".toList] = ([PyFloat.finite 5], []) := by decide

theorem pdiv2_pmul (a b : PyFloat) :
    PyFloat.pdiv2 (PyFloat.pmul a b) = PyFloat.pmul (PyFloat.pdiv2 b) a := by
  have h2 : ∀ q : ℚ, q / 2 = 0 ↔ q = 0 := fun q => by
    constructor <;> intro h <;> linarith
  have h3 : ∀ q : ℚ, 0 < q / 2 ↔ 0 < q := fun q => by
    constructor <;> intro h <;> linarith
  cases a <;> cases b <;>
    simp only [PyFloat.pmul, PyFloat.pdiv2, qmul_eq, qhalf_eq] <;>
    try rfl
  all_goals first
    | (split_ifs <;> simp_all [h2, h3] <;> linarith)
    | (congr 1; ring)

theorem trap_zip_eq :
    ∀ s : List (PyFloat × PyFloat),
      ((s.map (fun p => p.1)).zip ((s.map (fun p => p.1)).tail)).zip
        ((s.map (fun p => p.2)).zip ((s.map (fun p => p.2)).tail))
      = (s.zip s.tail).map (fun pq => ((pq.1.1, pq.2.1), (pq.1.2, pq.2.2)))
  | [] => rfl
  | [_] => rfl
  | a :: b :: rest => by
    have ih := trap_zip_eq (b :: rest)
    simp only [List.map_cons, List.tail_cons, List.zip_cons_cons] at ih ⊢
    rw [ih]

theorem npTrapezoid_eq_spec (s : List (PyFloat × PyFloat)) :
    npTrapezoid (s.map (fun p => p.2)) (s.map (fun p => p.1)) = specTrapSum s := by
  unfold npTrapezoid specTrapSum
  rw [trap_zip_eq, List.foldl_map]
  refine foldl_congr_mem (fun pq _ acc => ?_) _
  rw [pdiv2_pmul, PyFloat.padd_comm pq.2.2 pq.1.2]

/-- C4: for every series of at least two samples, taken in series order
and without re-sorting, the Integrator returns the sum over consecutive
pairs (t_i, v_i), (t_(i+1), v_(i+1)) of (v_i + v_(i+1)) / 2 * (t_(i+1) -
t_i); in particular [(0,0),(10,10)] integrates to 50.0 and the constant
series [(0,5),(10,5)] integrates to 50.0. -/
theorem c4_trapezoid_integral (s : List (PyFloat × PyFloat)) (h : 2 ≤ s.length) :
    calculate_cpu_seconds (s.map (fun p => p.1)) (s.map (fun p => p.2))
      = Except.ok (specTrapSum s)
    ∧ calculate_cpu_seconds [PyFloat.finite 0, PyFloat.finite 10]
        [PyFloat.finite 0, PyFloat.finite 10] = Except.ok (PyFloat.finite 50)
    ∧ calculate_cpu_seconds [PyFloat.finite 0, PyFloat.finite 10]
        [PyFloat.finite 5, PyFloat.finite 5] = Except.ok (PyFloat.finite 50) := by
  refine ⟨?_, by decide, by decide⟩
  unfold calculate_cpu_seconds
  rw [if_neg (by simp only [List.length_map]; omega)]
  rw [npTrapezoid_eq_spec]

theorem c4_trapezoid_integral_witness :
    calculate_cpu_seconds
        ([(PyFloat.finite 0, PyFloat.finite 0), (PyFloat.finite 10, PyFloat.finite 10)].map
          (fun p => p.1))
        ([(PyFloat.finite 0, PyFloat.finite 0), (PyFloat.finite 10, PyFloat.finite 10)].map
          (fun p => p.2))
      = Except.ok (specTrapSum
          [(PyFloat.finite 0, PyFloat.finite 0), (PyFloat.finite 10, PyFloat.finite 10)])
    ∧ calculate_cpu_seconds [PyFloat.finite 0, PyFloat.finite 10]
        [PyFloat.finite 0, PyFloat.finite 10] = Except.ok (PyFloat.finite 50)
    ∧ calculate_cpu_seconds [PyFloat.finite 0, PyFloat.finite 10]
        [PyFloat.finite 5, PyFloat.finite 5] = Except.ok (PyFloat.finite 50) :=
  c4_trapezoid_integral
    [(PyFloat.finite 0, PyFloat.finite 0), (PyFloat.finite 10, PyFloat.finite 10)]
    (by decide)

/-- C5: the Integrator fails with the insufficient-data `ValueError` if
and only if it is supplied fewer than 2 samples; on such input no scalar
is produced, and with 2 or more samples no error is raised. -/
theorem c5_insufficient_samples (s : List (PyFloat × PyFloat)) :
    ((∃ e, calculate_cpu_seconds (s.map (fun p => p.1)) (s.map (fun p => p.2))
        = Except.error e) ↔ s.length < 2)
    ∧ (s.length < 2 → ∀ r,
        calculate_cpu_seconds (s.map (fun p => p.1)) (s.map (fun p => p.2))
          ≠ Except.ok r) := by
  unfold calculate_cpu_seconds
  rw [List.length_map]
  by_cases h : s.length < 2
  · simp [h]
  · simp [h]

theorem c5_insufficient_samples_witness :
    ((∃ e, calculate_cpu_seconds
        ([(PyFloat.finite 0, PyFloat.finite 5)].map (fun p => p.1))
        ([(PyFloat.finite 0, PyFloat.finite 5)].map (fun p => p.2))
        = Except.error e) ↔ [(PyFloat.finite 0, PyFloat.finite 5)].length < 2)
    ∧ ([(PyFloat.finite 0, PyFloat.finite 5)].length < 2 → ∀ r,
        calculate_cpu_seconds
          ([(PyFloat.finite 0, PyFloat.finite 5)].map (fun p => p.1))
          ([(PyFloat.finite 0, PyFloat.finite 5)].map (fun p => p.2))
          ≠ Except.ok r) :=
  c5_insufficient_samples [(PyFloat.finite 0, PyFloat.finite 5)]

theorem eq_of_mem_keys_nodup {s : List (PyFloat × PyFloat)}
    (hnd : (s.map (fun p => p.1)).Nodup) {a b : PyFloat × PyFloat}
    (ha : a ∈ s) (hb : b ∈ s) (hab : a.1 = b.1) : a = b :=
  List.inj_on_of_nodup_map hnd ha hb hab

theorem lookupTs_eq_none_iff {s : List (PyFloat × PyFloat)} {t : PyFloat}
    (hfin : ∃ q, t = PyFloat.finite q) :
    lookupTs s t = none ↔ t ∉ s.map (fun p => p.1) := by
  obtain ⟨q, rfl⟩ := hfin
  unfold lookupTs
  cases hf : s.find? (fun p => PyFloat.peq p.1 (PyFloat.finite q)) with
  | none =>
    have hnone := List.find?_eq_none.mp hf
    simp only [hf]
    refine iff_of_true (by trivial) ?_
    intro hmem
    obtain ⟨p, hp, hp1⟩ := List.mem_map.mp hmem
    exact hnone p hp (by rw [hp1]; exact PyFloat.peq_refl_finite q)
  | some p =>
    have hp : p ∈ s := List.mem_of_find?_eq_some hf
    have hpeq := List.find?_some hf
    have hp1 : p.1 = PyFloat.finite q := PyFloat.peq_finite_iff.mp hpeq
    simp only [hf]
    exact iff_of_false (by simp) (fun hns => hns (List.mem_map.mpr ⟨p, hp, hp1⟩))

theorem lookupTs_eq_some_iff {s : List (PyFloat × PyFloat)} {t v : PyFloat}
    (hfin : ∃ q, t = PyFloat.finite q) (hnd : (s.map (fun p => p.1)).Nodup) :
    lookupTs s t = some v ↔ (t, v) ∈ s := by
  obtain ⟨q, rfl⟩ := hfin
  unfold lookupTs
  cases hf : s.find? (fun p => PyFloat.peq p.1 (PyFloat.finite q)) with
  | none =>
    have hnone := List.find?_eq_none.mp hf
    simp only [hf]
    refine iff_of_false (by simp) ?_
    intro hmem
    exact hnone _ hmem (PyFloat.peq_refl_finite q)
  | some p =>
    have hp : p ∈ s := List.mem_of_find?_eq_some hf
    have hpeq := List.find?_some hf
    have hp1 : p.1 = PyFloat.finite q := PyFloat.peq_finite_iff.mp hpeq
    simp only [hf, Option.some.injEq]
    constructor
    · rintro rfl
      rw [← hp1]
      exact hp
    · intro hmem
      have heq := eq_of_mem_keys_nodup hnd hp hmem (by rw [hp1])
      rw [heq]

theorem mem_unionIndex_iff {cols : List (List (PyFloat × PyFloat))}
    (hfin : ∀ s ∈ cols, ∀ p ∈ s, p.1.isFiniteB = true) {t : PyFloat} :
    t ∈ unionIndex cols ↔ ∃ s ∈ cols, t ∈ s.map (fun p => p.1) := by
  unfold unionIndex
  rw [(sortPy_perm _).mem_iff, mem_dedupPy_iff, mem_foldl_append]
  · simp
  · intro z hz
    rw [mem_foldl_append] at hz
    rcases hz with hz | ⟨s, hs, hz⟩
    · simp at hz
    · obtain ⟨p, hp, rfl⟩ := List.mem_map.mp hz
      exact isFiniteB_iff.mp (hfin s hs p hp)

theorem unionIndex_finite {cols : List (List (PyFloat × PyFloat))}
    (hfin : ∀ s ∈ cols, ∀ p ∈ s, p.1.isFiniteB = true) {t : PyFloat}
    (ht : t ∈ unionIndex cols) : ∃ q, t = PyFloat.finite q := by
  obtain ⟨s, hs, hmem⟩ := (mem_unionIndex_iff hfin).mp ht
  obtain ⟨p, hp, rfl⟩ := List.mem_map.mp hmem
  exact isFiniteB_iff.mp (hfin s hs p hp)

/-- C8: in timestamp-indexed alignment the Aligned Table is indexed by
the union of the input series' timestamps; each row carries one cell per
series, equal to the series' value where the series has a sample at that
exact timestamp and absent (`none`) — never coerced to 0 — where it does
not; in particular two series with disjoint timestamp sets produce a
table in which each series' cells at the other's timestamps are absent. -/
theorem c8_timestamp_alignment (cols : List (List (PyFloat × PyFloat)))
    (hfin : ∀ s ∈ cols, ∀ p ∈ s, p.1.isFiniteB = true)
    (hnd : ∀ s ∈ cols, (s.map (fun p => p.1)).Nodup) :
    (∀ t, (∃ cells, (t, cells) ∈ alignByTimestamp cols) ↔
        ∃ s ∈ cols, t ∈ s.map (fun p => p.1))
    ∧ (∀ row ∈ alignByTimestamp cols,
        row.2 = cols.map (fun s => lookupTs s row.1)
        ∧ ∀ s ∈ cols, (lookupTs s row.1 = none ↔ row.1 ∉ s.map (fun p => p.1))
          ∧ ∀ v, lookupTs s row.1 = some v ↔ (row.1, v) ∈ s)
    ∧ (∀ s1 s2 : List (PyFloat × PyFloat),
        (∀ p ∈ s1, p.1.isFiniteB = true) → (∀ p ∈ s2, p.1.isFiniteB = true) →
        (∀ t, t ∈ s1.map (fun p => p.1) → t ∉ s2.map (fun p => p.1)) →
        ∀ row ∈ alignByTimestamp [s1, s2],
          (row.1 ∈ s1.map (fun p => p.1) → lookupTs s2 row.1 = none)
          ∧ (row.1 ∈ s2.map (fun p => p.1) → lookupTs s1 row.1 = none)) := by
  refine ⟨?_, ?_, ?_⟩
  · intro t
    unfold alignByTimestamp
    constructor
    · rintro ⟨cells, hmem⟩
      obtain ⟨t0, ht0, heq⟩ := List.mem_map.mp hmem
      have : t0 = t := congrArg Prod.fst heq
      rw [← this]
      exact (mem_unionIndex_iff hfin).mp ht0
    · intro h
      exact ⟨cols.map (fun s => lookupTs s t),
        List.mem_map.mpr ⟨t, (mem_unionIndex_iff hfin).mpr h, rfl⟩⟩
  · intro row hrow
    unfold alignByTimestamp at hrow
    obtain ⟨t0, ht0, rfl⟩ := List.mem_map.mp hrow
    have hq : ∃ q, t0 = PyFloat.finite q := unionIndex_finite hfin ht0
    refine ⟨rfl, fun s hs => ⟨lookupTs_eq_none_iff hq, fun v =>
      lookupTs_eq_some_iff hq (hnd s hs)⟩⟩
  · intro s1 s2 hf1 hf2 hdisj row hrow
    unfold alignByTimestamp at hrow
    obtain ⟨t0, ht0, rfl⟩ := List.mem_map.mp hrow
    have hq : ∃ q, t0 = PyFloat.finite q := by
      refine unionIndex_finite ?_ ht0
      intro s hs p hp
      rcases List.mem_cons.mp hs with rfl | hs
      · exact hf1 p hp
      · rcases List.mem_cons.mp hs with rfl | hs
        · exact hf2 p hp
        · simp at hs
    constructor
    · intro h1
      exact (lookupTs_eq_none_iff hq).mpr (hdisj _ h1)
    · intro h2
      refine (lookupTs_eq_none_iff hq).mpr (fun h1 => ?_)
      exact hdisj _ h1 h2

theorem c8_timestamp_alignment_witness :
    lookupTs [((PyFloat.finite 0 : PyFloat), (PyFloat.finite 1 : PyFloat))]
      ((PyFloat.finite 1 : PyFloat),
        ([none, some (PyFloat.finite 9)] : List (Option PyFloat))).1 = none :=
  ((c8_timestamp_alignment
      [[(PyFloat.finite 0, PyFloat.finite 1)], [(PyFloat.finite 1, PyFloat.finite 9)]]
      (by decide) (by decide)).2.2
    [(PyFloat.finite 0, PyFloat.finite 1)] [(PyFloat.finite 1, PyFloat.finite 9)]
    (by decide) (by decide) (by decide)
    (PyFloat.finite 1, [none, some (PyFloat.finite 9)]) (by decide)).2 (by decide)

theorem filterMap_getElem_of_all_some {α β : Type} {f : α → Option β} :
    ∀ {l : List α}, (∀ a ∈ l, f a ≠ none) →
      ∀ j : ℕ, (l.filterMap f)[j]? = (l[j]?).bind f
  | [], _, j => by simp
  | a :: l, h, j => by
    obtain ⟨b, hb⟩ : ∃ b, f a = some b :=
      Option.ne_none_iff_exists'.mp (h a (by simp))
    rw [List.filterMap_cons, hb]
    cases j with
    | zero => simp [hb]
    | succ j =>
      simp only [List.getElem?_cons_succ]
      exact filterMap_getElem_of_all_some
        (fun x hx => h x (List.mem_cons_of_mem a hx)) j

/-- C9 (ordinal-indexed alignment, modelled from the spec since it is
absent from `src/`): `alignByOrdinal` fails with the `LengthMismatch`
error exactly when some pair of input series have unequal lengths; on
success the table has one row per position 0..L-1 (L the common length)
and the cell of column j in row i is series j's element at position i. -/
theorem c9_ordinal_alignment (cols : List (List PyFloat)) :
    ((∃ e, alignByOrdinal cols = Except.error e) ↔
      ∃ s1 ∈ cols, ∃ s2 ∈ cols, s1.length ≠ s2.length)
    ∧ ((∃ s1 ∈ cols, ∃ s2 ∈ cols, s1.length ≠ s2.length) →
        alignByOrdinal cols = Except.error "LengthMismatch")
    ∧ (∀ rows, alignByOrdinal cols = Except.ok rows →
        rows.length = (cols.headD []).length
        ∧ ∀ (i : ℕ) (row : List PyFloat), rows[i]? = some row →
            ∀ (j : ℕ) (s : List PyFloat), cols[j]? = some s → row[j]? = s[i]?) := by
  match cols with
  | [] =>
    refine ⟨by simp [alignByOrdinal], by simp, ?_⟩
    intro rows hrows
    simp only [alignByOrdinal, Except.ok.injEq] at hrows
    subst hrows
    refine ⟨rfl, ?_⟩
    intro i row hrow
    simp at hrow
  | c :: rest =>
    by_cases hall : rest.all (fun s => s.length = c.length) = true
    · have hlen : ∀ s ∈ c :: rest, s.length = c.length := by
        intro s hs
        rcases List.mem_cons.mp hs with rfl | hs
        · rfl
        · simpa using List.all_eq_true.mp hall s hs
      have hok : alignByOrdinal (c :: rest)
          = Except.ok ((List.range c.length).map
              (fun i => (c :: rest).filterMap (fun s => s[i]?))) := by
        have h : alignByOrdinal (c :: rest)
            = if (rest.all fun s => s.length = c.length) = true then
                Except.ok ((List.range c.length).map
                  (fun i => (c :: rest).filterMap (fun s => s[i]?)))
              else Except.error "LengthMismatch" := rfl
        rw [h, if_pos hall]
      refine ⟨?_, ?_, ?_⟩
      · rw [hok]
        refine iff_of_false ?_ ?_
        · rintro ⟨e, he⟩
          exact Except.noConfusion he
        · rintro ⟨s1, hs1, s2, hs2, hne⟩
          exact hne (by rw [hlen s1 hs1, hlen s2 hs2])
      · rintro ⟨s1, hs1, s2, hs2, hne⟩
        exact absurd (by rw [hlen s1 hs1, hlen s2 hs2]) hne
      · intro rows hrows
        rw [hok] at hrows
        injection hrows with hrows
        subst hrows
        refine ⟨by simp, ?_⟩
        intro i row hrow j s hs
        rw [List.getElem?_map] at hrow
        by_cases hi : i < c.length
        · rw [List.getElem?_range hi] at hrow
          simp only [Option.map_some', Option.some.injEq] at hrow
          subst hrow
          have hsome : ∀ t ∈ c :: rest, t[i]? ≠ none := by
            intro t ht hnone
            rw [List.getElem?_eq_none_iff, hlen t ht] at hnone
            omega
          rw [filterMap_getElem_of_all_some hsome j, hs]
          rfl
        · rw [List.getElem?_eq_none (by simpa using hi)] at hrow
          simp at hrow
    · have herr : alignByOrdinal (c :: rest) = Except.error "LengthMismatch" := by
        have h : alignByOrdinal (c :: rest)
            = if (rest.all fun s => s.length = c.length) = true then
                Except.ok ((List.range c.length).map
                  (fun i => (c :: rest).filterMap (fun s => s[i]?)))
              else Except.error "LengthMismatch" := rfl
        rw [h, if_neg hall]
      have hex : ∃ s ∈ rest, ¬ s.length = c.length := by
        by_contra hc
        push_neg at hc
        exact hall (List.all_eq_true.mpr (fun s hs => by simp [hc s hs]))
      obtain ⟨s, hs, hne⟩ := hex
      refine ⟨⟨fun _ => ⟨s, List.mem_cons_of_mem c hs, c, by simp, hne⟩,
        fun _ => ⟨"LengthMismatch", herr⟩⟩, fun _ => herr, ?_⟩
      intro rows hrows
      rw [herr] at hrows
      exact Except.noConfusion hrows

theorem c9_ordinal_alignment_witness :
    ∃ s1 ∈ [[PyFloat.pyZero], [PyFloat.pyZero, PyFloat.pyZero]],
      ∃ s2 ∈ [[PyFloat.pyZero], [PyFloat.pyZero, PyFloat.pyZero]],
        s1.length ≠ s2.length :=
  (c9_ordinal_alignment [[PyFloat.pyZero], [PyFloat.pyZero, PyFloat.pyZero]]).1.mp
    ⟨"LengthMismatch", by decide⟩

example : PyParse.pyFloat? "3.5".toList = some (PyFloat.finite (mkRat 7 2)) := by decide
example : PyParse.pyFloat? " -0.25 ".toList = some (PyFloat.finite (mkRat (-1) 4)) := by decide
example : PyParse.pyFloat? "nan".toList = some PyFloat.nan := by decide
example : PyParse.pyFloat? "+InF".toList = some PyFloat.pinf := by decide
example : PyParse.pyFloat? "-Infinity".toList = some PyFloat.ninf := by decide
example : PyParse.pyFloat? "1e3".toList = some (PyFloat.finite 1000) := by decide
example : PyParse.pyFloat? "2.5e-2".toList = some (PyFloat.finite (mkRat 1 40)) := by decide
example : PyParse.pyFloat? "5.".toList = some (PyFloat.finite 5) := by decide
example : PyParse.pyFloat? ".5".toList = some (PyFloat.finite (mkRat 1 2)) := by decide
example : PyParse.pyFloat? "".toList = none := by decide
example : PyParse.pyFloat? "abc".toList = none := by decide
example : PyParse.pyFloat? "1e".toList = none := by decide
example : PyParse.pyFloat? ".".toList = none := by decide
example : PyParse.pyFloat? "1.2.3".toList = none := by decide
example : PyParse.pyFloat? "(0rows)".toList = none := by decide
example : PyParse.pyInt? " 42 ".toList = some 42 := by decide
example : PyParse.pyInt? "-7".toList = some (-7) := by decide
example : PyParse.pyInt? "12.0".toList = none := by decide
example : splitComma "a,b,,c".toList = [['a'],['b'],[],['c']] := by decide
example : splitComma "".toList = [[]] := by decide
example : PyFloat.ple (PyFloat.finite (mkRat 1 2)) (PyFloat.finite 3) = true := by decide
example : PyFloat.ple PyFloat.nan PyFloat.nan = false := by decide
example : PyFloat.pmax PyFloat.pyZero PyFloat.nan = PyFloat.pyZero := by decide
